import Mathlib

/-!
# Verification of the cpyte-engine frame-lifecycle and transfer-pipeline core

This file gives a shallow embedding, in Lean 4, of the synchronization- and
resource-relevant parts of the `cpyte-engine` renderer (`src/fence.rs`,
`src/buffer.rs`, `src/image.rs`, `src/texture.rs`, `src/command_executor.rs`,
`src/renderer.rs`) and proves properties of the per-frame orchestration,
the staged-upload transfer pipeline, and resource creation.

Modelling conventions:
* machine integers become `Nat`;
* Vulkan handles become symbolic tags (`Nat`, or `Option Nat` where a handle
  can be the null handle);
* the scene's hash map of entities becomes a `List` in iteration order and the
  per-entity resource hash maps become association lists keyed by entity id;
* a hash-map index lookup that can panic (`map[&id]`) becomes an `Option`
  computation (`none` = panic);
* `draw_frame` is embedded as a function producing the list of API events it
  issues, in program order, together with a state transition on the in-flight
  frame counter; sequences of calls produce per-call event blocks;
* floating-point arithmetic appears only in `Image::mip_levels`; there the
  u32 → f32 conversion (round to nearest, ties to even) is modelled exactly,
  and `f32::log2`/`floor` are idealized as having the mathematically exact
  floor (see `Image.mip_levels`).
-/

set_option maxRecDepth 4000

namespace CpyteEngine

/-- Memory property flags used by the engine's allocations
(`vk::MemoryPropertyFlags` in the source). -/
inductive MemProp
  | deviceLocal
  | hostVisible
  | hostCoherent
deriving DecidableEq

/-- Buffer usage flags used by the engine (`vk::BufferUsageFlags`). -/
inductive BufUsage
  | transferSrc
  | transferDst
  | vertexBuffer
  | indexBuffer
  | uniformBuffer
deriving DecidableEq

/-- The two queues the renderer uses (`graphics_queue`, `present_queue`). -/
inductive QueueId
  | graphics
  | present
deriving DecidableEq

/-- Pipeline stages appearing in the frame orchestrator's submit info. -/
inductive Stage
  | colorAttachmentOutput
deriving DecidableEq

/-- Shader stages appearing in push-constant recording. -/
inductive ShaderStage
  | vertexStage
deriving DecidableEq

/-! ## Fences — `src/fence.rs`

`Fence::new(device, signaled)` matches on `signaled`: in the `true` arm it
calls `create_fence` with the `SIGNALED` flag; in the `false` arm it performs
no API call at all and stores `vk::Fence::null()`.  `Fence::is_null` tests the
stored handle for nullity. -/

/-- Result of `Fence::new`: the stored handle (`none` = `vk::Fence::null()`),
how many `create_fence` API calls were made, and whether the created fence
carried the `SIGNALED` create flag. -/
structure FenceVal where
  handle : Option Nat
  createCalls : Nat
  signaledFlag : Bool
deriving DecidableEq

namespace Fence

/-- `Fence::new` (fence.rs:15-31). `fresh` stands for the device handle the
API would return in the `signaled = true` arm. -/
def new (signaled : Bool) (fresh : Nat) : FenceVal :=
  match signaled with
  | true => { handle := some fresh, createCalls := 1, signaledFlag := true }
  | false => { handle := none, createCalls := 0, signaledFlag := false }

/-- `Fence::is_null` (fence.rs:49-51). -/
def is_null (f : FenceVal) : Bool := f.handle.isNone

end Fence

/-! ## Buffers — `src/buffer.rs`

Each constructor of `Buffer<T>` is embedded as the description of the buffer
it creates (size in bytes, usage flags, memory property flags) together with
how its contents are populated. -/

/-- How a buffer's contents get populated. -/
inductive FillMethod
  /-- never written by the constructor -/
  | unfilled
  /-- `Buffer::fill`: staging buffer created, host memcpy into the staging
  buffer, one-shot `cmd_copy_buffer` staging → destination, staging destroyed -/
  | stagingCopy
  /-- direct `map_memory`/memcpy/`unmap_memory` into the buffer's own memory -/
  | directHostWrite
deriving DecidableEq

/-- Description of a created buffer. -/
structure BufferDesc where
  sizeBytes : Nat
  usage : List BufUsage
  memProps : List MemProp
  fill : FillMethod
deriving DecidableEq

namespace Buffer

/-- `Buffer::new` (buffer.rs:33-58): creates the buffer with the given size,
usage and memory-property flags; performs no fill. -/
def bnew (sizeBytes : Nat) (usage : List BufUsage) (memProps : List MemProp) :
    BufferDesc :=
  { sizeBytes := sizeBytes, usage := usage, memProps := memProps,
    fill := .unfilled }

/-- `Buffer::from_staging_data` (buffer.rs:82-96): `TRANSFER_SRC` usage,
`HOST_VISIBLE | HOST_COHERENT` memory. `elemSize * len` bytes. -/
def from_staging_data (elemSize len : Nat) : BufferDesc :=
  bnew (elemSize * len) [.transferSrc] [.hostVisible, .hostCoherent]

/-- `Buffer::from_indices` (buffer.rs:60-80): `TRANSFER_DST | INDEX_BUFFER`,
`DEVICE_LOCAL`, then `Buffer::fill` (staging copy). `u32` elements. -/
def from_indices (len : Nat) : BufferDesc :=
  { bnew (4 * len) [.transferDst, .indexBuffer] [.deviceLocal] with
      fill := .stagingCopy }

/-- `Buffer::from_vertices` (buffer.rs:98-118): `VERTEX_BUFFER | TRANSFER_DST`,
`DEVICE_LOCAL`, then `Buffer::fill` (staging copy). `Vertex` is
{3 + 3 + 2 f32s} = 32 bytes. -/
def from_vertices (len : Nat) : BufferDesc :=
  { bnew (32 * len) [.vertexBuffer, .transferDst] [.deviceLocal] with
      fill := .stagingCopy }

/-- `Buffer::from_uniform_data` (buffer.rs:120-133): `UNIFORM_BUFFER` usage,
`HOST_COHERENT | HOST_VISIBLE` memory, no fill at construction.  `Ubo` is two
4×4 f32 matrices = 128 bytes. -/
def from_uniform_data : BufferDesc :=
  bnew 128 [.uniformBuffer] [.hostCoherent, .hostVisible]

/-- `UniformBuffer::update` (buffer.rs:260-279) recomputes the UBO and calls
`copy_memory(self.clone(), ..)`: it maps the uniform buffer's **own** memory
and memcpys into it — a direct host write, no staging buffer and no command
submission. -/
def uniform_update_fill : FillMethod := .directHostWrite

end Buffer

/-! ## Images and textures — `src/image.rs`, `src/texture.rs` -/

/-- `vk::Extent3D` restricted to what the engine uses (u32 components). -/
structure Extent3D where
  width : Nat
  height : Nat
  depth : Nat
deriving DecidableEq

/-- Image formats appearing in texture creation. -/
inductive ImgFormat
  | r8g8b8a8Srgb
deriving DecidableEq

/-- Image usage flags appearing in texture creation. -/
inductive ImgUsage
  | sampled
  | imgTransferSrc
  | imgTransferDst
deriving DecidableEq

namespace Image

/-- `⌊log₂⌋` by fuelled halving (agrees with `Nat.log2`; see
`log2floor_eq_log2` below, stated structurally so the kernel can evaluate
it). -/
def log2floorAux : Nat → Nat → Nat
  | 0, _ => 0
  | fuel + 1, n => if n < 2 then 0 else log2floorAux fuel (n / 2) + 1

/-- `⌊log₂ n⌋` (0 at 0). -/
def log2floor (n : Nat) : Nat := log2floorAux n n

/-- Exact model of Rust's `u32 as f32` conversion: round to the nearest
value representable with a 24-bit significand, ties to even.  Values below
`2^24` are exactly representable. -/
def f32ofU32 (v : Nat) : Nat :=
  if v < 2 ^ 24 then v
  else
    let k := log2floor v
    let ulp := 2 ^ (k - 23)
    let q := v / ulp
    let r := v % ulp
    if 2 * r < ulp then q * ulp
    else if ulp < 2 * r then (q + 1) * ulp
    else if q % 2 = 0 then q * ulp else (q + 1) * ulp

/-- The binade exponent of the f32 values immediately below the integer
`j ≥ 2` (i.e. `⌊log₂ (j − 1)⌋`): the f32 ulp just below `j` is
`2^(belowExp j − 23)`, so the round-to-nearest midpoint below `j` sits at
`j − 2^(belowExp j − 24)`. -/
def belowExp (j : Nat) : Nat := log2floor (j - 1)

/-- `f32::log2().floor()` on an exactly-representable positive integer
input `m` (every output of `f32ofU32` is one), with `log2` modelled as
correctly rounded to nearest f32 (glibc's float32 `log2f` is correctly
rounded).  For `m = 2^k` the true log₂ is the representable value `k`, so
the result is `k`.  For `m ∈ (2^k, 2^(k+1))` the true log₂ lies in
`(k, k+1)` and the rounded value floors to `k + 1` exactly when the true
log₂ exceeds the rounding midpoint `(k+1) − 2^(belowExp (k+1) − 24)` below
`k + 1` — equivalently (raising both sides to the power `2^(24 − belowExp)`):
when `m ^ 2^(24−e) > 2^((k+1)·2^(24−e) − 1)`; otherwise it floors to `k`
(a tie is impossible: log₂ of a non-power-of-two integer is irrational). -/
def floorLog2f (m : Nat) : Nat :=
  if m = 2 ^ log2floor m then log2floor m
  else if 2 ^ ((log2floor m + 1) * 2 ^ (24 - belowExp (log2floor m + 1)) - 1) <
      m ^ 2 ^ (24 - belowExp (log2floor m + 1)) then log2floor m + 1
  else log2floor m

/-- `Image::mip_levels` (image.rs:209-211):
`(extent.width.max(extent.height) as f32).log2().floor() as u32 + 1`.
The `u32 → f32` conversion is modelled exactly by `f32ofU32`, and
`f32::log2().floor()` by `floorLog2f` (correctly-rounded `log2`, exact
floor — `floor` and the `as u32` cast are exact on these small
nonnegative values). -/
def mip_levels (extent : Extent3D) : Nat :=
  floorLog2f (f32ofU32 (max extent.width extent.height)) + 1

end Image

/-- Description of a created image (the fields of `Image::new` relevant to
the claims). -/
structure ImageDesc where
  extent : Extent3D
  mipLevels : Nat
  format : ImgFormat
  usage : List ImgUsage
  memProps : List MemProp
  samples : Nat
deriving DecidableEq

namespace Texture

/-- `Texture::create_image` (texture.rs:39-61): an `Image::new` with
`Image::mip_levels(extent)` levels, `R8G8B8A8_SRGB`,
`SAMPLED | TRANSFER_SRC | TRANSFER_DST`, `DEVICE_LOCAL` memory. -/
def create_image (extent : Extent3D) (msaaSampleCount : Nat) : ImageDesc :=
  { extent := extent
    mipLevels := Image.mip_levels extent
    format := .r8g8b8a8Srgb
    usage := [.sampled, .imgTransferSrc, .imgTransferDst]
    memProps := [.deviceLocal]
    samples := msaaSampleCount }

end Texture

/-! ## One-shot command executor — `src/command_executor.rs`

`CommandExecutor::execute` is embedded as the list of actions it performs, in
program order, parametrized by the commands the caller's closure records. -/

/-- Command-buffer levels (`vk::CommandBufferLevel`). -/
inductive CmdBufLevel
  | primary
  | secondary
deriving DecidableEq

/-- One action of the one-shot executor.  `α` is the type of commands the
caller's closure records. -/
inductive ExecAct (α : Type) where
  /-- `CommandBuffer::new`: `allocate_command_buffers`, level `PRIMARY` -/
  | alloc (level : CmdBufLevel)
  /-- `CommandBuffer::begin` -/
  | beginBuf
  /-- one command recorded by the caller's closure -/
  | record (c : α)
  /-- `CommandBuffer::end` -/
  | endBuf
  /-- `Queue::submit` of the one-shot buffer; `fenceHandle` is the handle of
  the fence passed to `queue_submit` -/
  | submitOneShot (q : QueueId) (fenceHandle : Option Nat)
  /-- `Queue::wait_idle` -/
  | waitIdle (q : QueueId)
  /-- `Fence::destroy` -/
  | destroyFence
  /-- `CommandBuffer::destroy`: `free_command_buffers` -/
  | freeCmdBuf
deriving DecidableEq

namespace CommandExecutor

/-- The throwaway fence created at command_executor.rs:27:
`Fence::new(device, false)`. -/
def throwawayFence : FenceVal := Fence.new false 0

/-- `CommandExecutor::execute` (command_executor.rs:11-34): allocate a primary
command buffer, begin it, run the caller's closure (recording `cmds`), end it,
submit on the graphics queue with the throwaway fence, wait for queue idle,
destroy the fence, free the command buffer. -/
def execute {α : Type} (cmds : List α) : List (ExecAct α) :=
  [ExecAct.alloc .primary, ExecAct.beginBuf]
    ++ cmds.map ExecAct.record
    ++ [ExecAct.endBuf,
        ExecAct.submitOneShot .graphics throwawayFence.handle,
        ExecAct.waitIdle .graphics,
        ExecAct.destroyFence,
        ExecAct.freeCmdBuf]

/-- Pending-work semantics for a queue: a `submitOneShot` on `q` adds one
pending batch; a `waitIdle` on `q` blocks until the queue has no pending
work, hence leaves zero pending batches. -/
def pendingStep {α : Type} (q : QueueId) (pending : Nat) : ExecAct α → Nat
  | .submitOneShot q' _ => if q' = q then pending + 1 else pending
  | .waitIdle q' => if q' = q then 0 else pending
  | _ => pending

/-- Batches still pending on queue `q` after the action list runs. -/
def pendingAfter {α : Type} (q : QueueId) (acts : List (ExecAct α)) : Nat :=
  acts.foldl (pendingStep q) 0

end CommandExecutor

/-! ## Frame orchestrator — `src/renderer.rs`

The renderer's per-frame state machine is embedded as an event-trace
semantics: one `draw_frame` call produces the list of API events it issues,
in program order, and advances the in-flight slot index.  The swapchain image
index returned by `acquire_next_image_khr` is an input (the presentation
engine chooses it), so runs are parametrized by the acquired index sequence.

`MAX_FLIGHT_FRAMES_COUNT = 2` in the source (renderer.rs:59); the orchestration
functions are stated over a general in-flight count `n` (the structure of the
code is unchanged, only the constant generalizes), and the renderer's actual
configuration instantiates `n := MAX_FLIGHT_FRAMES_COUNT`. -/

/-- renderer.rs:59. -/
def MAX_FLIGHT_FRAMES_COUNT : Nat := 2

/-- A scene entity, reduced to the data `Renderer` consumes.  `matrixData`
abstracts the f32 `transform_matrix()` payload pushed as a push constant, and
`indicesLen` is `entity.model.indices.len()`. -/
structure Entity where
  id : Nat
  matrixData : Nat
  indicesLen : Nat
deriving DecidableEq

/-- A descriptor set as built by `Renderer::new` (renderer.rs:240-256): it
references one fixed uniform buffer (by index among the per-swapchain-image
uniform buffers) and the owner entity's texture view/sampler. -/
structure DSet where
  uniformBufIdx : Nat
  textureOwner : Nat
deriving DecidableEq

/-- Resources of the renderer that the frame loop writes to or submits work
on.  `cmdBuf i` / `uniformBuf i` are `command_buffers[i]` /
`uniform_buffers[i]` (one per swapchain image); the per-slot objects are
`wait_semaphores[s]`, `signal_semaphores[s]`, `signaled_fences[s]`,
`unsignaled_fences[s]`. -/
inductive Res
  | cmdBuf (i : Nat)
  | uniformBuf (i : Nat)
  | waitSem (s : Nat)
  | signalSem (s : Nat)
  | sigFence (s : Nat)
  | unsigFence (s : Nat)
deriving DecidableEq

/-- One API event issued by `draw_frame`, in program order. -/
inductive Ev
  /-- `Fence::wait` -/
  | waitFence (f : Res)
  /-- `Swapchain::next_image_index`: `acquire_next_image_khr` gated by the
  slot's wait semaphore, returning `image` -/
  | acquire (sem : Res) (image : Nat)
  /-- `CommandBuffer::reset` of `command_buffers[image]` -/
  | resetCmdBuf (image : Nat)
  /-- `UniformBuffer::update` of `uniform_buffers[image]` -/
  | updateUniform (image : Nat)
  /-- `CommandBuffer::start_recording` -/
  | beginRecord (image : Nat)
  /-- `cmd_bind_vertex_buffers` with the entity's vertex buffer (tagged) -/
  | bindVertexBuf (v : Nat)
  /-- `cmd_bind_index_buffer` with the entity's index buffer (tagged) -/
  | bindIndexBuf (x : Nat)
  /-- `cmd_bind_descriptor_sets` with the entity's descriptor set -/
  | bindDescriptorSet (d : DSet)
  /-- `cmd_push_constants`, vertex stage, the entity's model matrix -/
  | pushConstants (stage : ShaderStage) (m : Nat)
  /-- `cmd_draw_indexed` with `indices.len()` indices -/
  | drawIndexed (count : Nat)
  /-- `CommandBuffer::finish_recording` -/
  | endRecord (image : Nat)
  /-- `Fence::reset` -/
  | resetFence (f : Res)
  /-- `Queue::submit`: wait `waitS` at stage `stage`, command buffer of
  `image`, signal `signalS`, fence `fence` -/
  | submit (q : QueueId) (waitS : Res) (stage : Stage) (image : Nat)
      (signalS : Res) (fence : Res)
  /-- `Queue::present`: wait `waitS`, present `image` -/
  | present (q : QueueId) (waitS : Res) (image : Nat)
deriving DecidableEq

/-- Association-list lookup keyed by entity id (the engine's
`HashMap<usize, _>` indexing; `none` models the `index` panic on a missing
key). -/
def alookup {α : Type} (id : Nat) : List (Nat × α) → Option α
  | [] => none
  | (k, a) :: rest => if k = id then some a else alookup id rest

/-- The renderer fields, as assembled by `Renderer::new`, that `draw_frame`
reads.  `n` is the in-flight frame count; `sigFenceHandle`/`unsigFenceHandle`
are the handles stored in `signaled_fences`/`unsignaled_fences`. -/
structure Cfg where
  n : Nat
  numImages : Nat
  entities : List Entity
  vertexBufs : List (Nat × Nat)
  indexBufs : List (Nat × Nat)
  descriptorSets : List (Nat × DSet)
  sigFenceHandle : Nat → Option Nat
  unsigFenceHandle : Nat → Option Nat

namespace Renderer

/-- The descriptor-set map built by `Renderer::new` (renderer.rs:240-256):
`uniform_buffers.iter().zip(entities.values())`, one set per pair, keyed by
entity id, each referencing the zipped uniform buffer.  The uniform buffers
are one per swapchain image (renderer.rs:133-143), so the zip runs over
`min numImages (entities.length)` pairs. -/
def mkDescriptorSets (numImages : Nat) (entities : List Entity) :
    List (Nat × DSet) :=
  ((List.range numImages).zip entities).map
    (fun p => (p.2.id, { uniformBufIdx := p.1, textureOwner := p.2.id }))

/-- `Renderer::new` (renderer.rs:62-370), restricted to the fields
`draw_frame` reads.  Per-entity vertex/index buffers are built from the whole
entity list (renderer.rs:200-238) and tagged by owner id; the fences are
created at renderer.rs:328-333: `signaled_fences` by `Fence::new(_, true)`
(a real, signaled fence per slot), `unsignaled_fences` by
`Fence::new(_, false)`. -/
def rnew (numImages : Nat) (entities : List Entity) : Cfg :=
  { n := MAX_FLIGHT_FRAMES_COUNT
    numImages := numImages
    entities := entities
    vertexBufs := entities.map (fun e => (e.id, e.id))
    indexBufs := entities.map (fun e => (e.id, e.id))
    descriptorSets := mkDescriptorSets numImages entities
    sigFenceHandle := fun s => (Fence.new true (s + 1)).handle
    unsigFenceHandle := fun s => (Fence.new false 0).handle }

/-- `CommandBuffer::record_drawing` for one entity (renderer.rs:429-442 and
command_buffer.rs:118-166): look up the entity's vertex buffer, index buffer
and descriptor set (`none` = lookup panic), then bind vertex buffer, bind
index buffer, bind descriptor set, push the model matrix (vertex stage), draw
indexed. -/
def recordEntity (cfg : Cfg) (e : Entity) : Option (List Ev) := do
  let v ← alookup e.id cfg.vertexBufs
  let x ← alookup e.id cfg.indexBufs
  let d ← alookup e.id cfg.descriptorSets
  pure [Ev.bindVertexBuf v, Ev.bindIndexBuf x, Ev.bindDescriptorSet d,
        Ev.pushConstants .vertexStage e.matrixData, Ev.drawIndexed e.indicesLen]

/-- The per-entity recording loop of `draw_frame` (renderer.rs:429-442), over
the scene's entities in iteration order. -/
def recordAll (cfg : Cfg) : Option (List Ev) := do
  let ls ← cfg.entities.mapM (recordEntity cfg)
  pure ls.flatten

/-- One `draw_frame` call (renderer.rs:407-474) with current slot `frame` and
acquired image index `image`: wait the slot's frame-done fence; acquire with
the slot's wait semaphore; if the slot's `unsignaled_fences` entry is not
null, wait on it (renderer.rs:414-416); reset the image's command buffer;
update the image's uniform buffer; record; reset the slot's frame-done fence;
submit on the graphics queue (wait the slot's wait semaphore at
color-attachment-output, signal the slot's signal semaphore, fence the slot's
frame-done fence); present on the present queue (wait the slot's signal
semaphore, present the image). `none` models a lookup panic while recording. -/
def drawFrameEvents (cfg : Cfg) (frame : Nat) (image : Nat) :
    Option (List Ev) := do
  let recs ← recordAll cfg
  pure ([Ev.waitFence (.sigFence frame),
         Ev.acquire (.waitSem frame) image]
    ++ (if (cfg.unsigFenceHandle frame).isNone then []
        else [Ev.waitFence (.unsigFence frame)])
    ++ [Ev.resetCmdBuf image, Ev.updateUniform image, Ev.beginRecord image]
    ++ recs
    ++ [Ev.endRecord image,
        Ev.resetFence (.sigFence frame),
        Ev.submit .graphics (.waitSem frame) .colorAttachmentOutput image
          (.signalSem frame) (.sigFence frame),
        Ev.present .present (.signalSem frame) image])

/-- The slot advance at the end of `draw_frame` (renderer.rs:473):
`(frame + 1) % n` with `n = MAX_FLIGHT_FRAMES_COUNT` in the renderer's
configuration. -/
def nextFrame (cfg : Cfg) (frame : Nat) : Nat := (frame + 1) % cfg.n

/-- A sequence of `draw_frame` calls starting at slot `frame`, one per
acquired image index in `images`, as the list of per-call event blocks. -/
def blocksFrom (cfg : Cfg) (frame : Nat) : List Nat → Option (List (List Ev))
  | [] => some []
  | i :: rest => do
      let b ← drawFrameEvents cfg frame i
      let bs ← blocksFrom cfg (nextFrame cfg frame) rest
      pure (b :: bs)

end Renderer

/-! ### MSAA configuration — `Renderer::new`, renderer.rs:88-99 and 258-291

At renderer.rs:89 the `msaa_sample_count` parameter is shadowed by
`let msaa_sample_count = SampleCountFlags::_1;` before the first use of the
parameter (the preceding lines touch only the entry, window, validation
layers, instance, debug messenger and surface), so every later consumer sees
sample count 1. -/

/-- The sample counts `Renderer::new` hands to each consumer, plus whether
the multisample color image is created. -/
structure MsaaOutcome where
  deviceSamples : Nat
  renderPassSamples : Nat
  textureImageSamples : Nat
  pipelineSamples : Nat
  depthImageSamples : Nat
  colorImageSamples : Option Nat
deriving DecidableEq

namespace Renderer

/-- The msaa-relevant dataflow of `Renderer::new` as a function of the
caller's `msaa_sample_count` argument, reproducing the shadowing at
renderer.rs:89 and the `msaa_sample_count > SampleCountFlags::_1` test at
renderer.rs:271. -/
def msaaOutcome (msaa_sample_count : Nat) : MsaaOutcome :=
  let msaa_sample_count := 1
  { deviceSamples := msaa_sample_count
    renderPassSamples := msaa_sample_count
    textureImageSamples := msaa_sample_count
    pipelineSamples := msaa_sample_count
    depthImageSamples := msaa_sample_count
    colorImageSamples :=
      if msaa_sample_count > 1 then some msaa_sample_count else none }

end Renderer

/-! ## Trace analysis: fence-observed completion and resource reuse

The CPU-visible synchronization semantics: queue submissions complete on the
GPU in submission order, and a fence wait that returns certifies completion of
the last submission that carried that fence — hence of every submission made
at or before it.  A reuse (CPU write / re-acquisition) of a resource in call
`j` is *fence-covered* when some fence wait performed in call `j` certifies
completion of the last prior submission that used the resource.  (Within one
`draw_frame` block all fence waits precede all reuses — proved below from the
block structure — so call-granularity is faithful.) -/

/-- The fence an event waits on, if it is a fence wait. -/
def waitTarget : Ev → Option Res
  | .waitFence f => some f
  | _ => none

/-- Fences waited on by an event block. -/
def blockWaits (evs : List Ev) : List Res := evs.filterMap waitTarget

/-- Resources a queue submission hands to the GPU: the semaphore it waits on,
the command buffer and the uniform buffer of the recorded image, the
semaphore and the fence it signals. -/
def submitUses : Ev → List Res
  | .submit _ ws _ i ss f => [ws, .cmdBuf i, .uniformBuf i, ss, f]
  | _ => []

/-- Resources used by the submissions of an event block. -/
def blockSubmitUses (evs : List Ev) : List Res := evs.flatMap submitUses

/-- The fence signalled by a submission event. -/
def submitFenceOf : Ev → Option Res
  | .submit _ _ _ _ _ f => some f
  | _ => none

/-- Fences carried by the submissions of an event block. -/
def blockFences (evs : List Ev) : List Res := evs.filterMap submitFenceOf

/-- The event block of call `k` (empty when out of range). -/
def blockAt (bs : List (List Ev)) (k : Nat) : List Ev := (bs.get? k).getD []

/-- Does call `k`'s submission use resource `r`? -/
def usesRes (bs : List (List Ev)) (k : Nat) (r : Res) : Bool :=
  (blockSubmitUses (blockAt bs k)).contains r

/-- Does call `k` submit with fence `f`? -/
def fencedBy (bs : List (List Ev)) (k : Nat) (f : Res) : Bool :=
  (blockFences (blockAt bs k)).contains f

/-- Is an event an indexed draw? -/
def isDrawEv : Ev → Bool
  | .drawIndexed _ => true
  | _ => false

/-- Is an event one of the five produced by `record_drawing` (binds, push
constant, indexed draw)? -/
def isRecordingEv : Ev → Bool
  | .bindVertexBuf _ => true
  | .bindIndexBuf _ => true
  | .bindDescriptorSet _ => true
  | .pushConstants _ _ => true
  | .drawIndexed _ => true
  | _ => false

/-- The per-call block shape of `draw_frame` at slot `s`, acquired image `i`,
with recording events `recs` (see `Renderer.drawFrameEvents`). -/
def blockShape (cfg : Cfg) (s i : Nat) (recs : List Ev) : List Ev :=
  [Ev.waitFence (.sigFence s), Ev.acquire (.waitSem s) i]
    ++ (if (cfg.unsigFenceHandle s).isNone then []
        else [Ev.waitFence (.unsigFence s)])
    ++ [Ev.resetCmdBuf i, Ev.updateUniform i, Ev.beginRecord i]
    ++ recs
    ++ [Ev.endRecord i,
        Ev.resetFence (.sigFence s),
        Ev.submit .graphics (.waitSem s) .colorAttachmentOutput i
          (.signalSem s) (.sigFence s),
        Ev.present .present (.signalSem s) i]

/-- The descriptor set `draw_frame` binds for entity `e` (its lookup result;
the default is irrelevant, reached only on the panic path). -/
def dsFor (cfg : Cfg) (e : Entity) : DSet :=
  (alookup e.id cfg.descriptorSets).getD { uniformBufIdx := 0, textureOwner := 0 }

/-- The five recording events `draw_frame` issues for one entity of a
`Renderer::new` configuration: bind its vertex buffer, bind its index
buffer, bind its descriptor set, push its model matrix (vertex stage), draw
its indices. -/
def entityRecording (cfg : Cfg) (e : Entity) : List Ev :=
  [Ev.bindVertexBuf e.id, Ev.bindIndexBuf e.id,
   Ev.bindDescriptorSet (dsFor cfg e),
   Ev.pushConstants .vertexStage e.matrixData,
   Ev.drawIndexed e.indicesLen]

/-! ### Concrete scenes for witnesses and counterexamples -/

/-- A single concrete entity. -/
def exEntity : Entity := { id := 0, matrixData := 7, indicesLen := 3 }

/-- A second concrete entity, distinct id. -/
def exEntityB : Entity := { id := 1, matrixData := 8, indicesLen := 6 }

/-- Renderer configuration: 2 swapchain images, one entity,
`n = MAX_FLIGHT_FRAMES_COUNT = 2`. -/
def exCfg : Cfg := Renderer.rnew 2 [exEntity]

/-- The event blocks of two consecutive `draw_frame` calls on `exCfg` in
which the presentation engine hands out image index 0 twice in a row. -/
def exBlocks : List (List Ev) :=
  (Renderer.blocksFrom exCfg 0 [0, 0]).getD []

/-- The events of one `draw_frame` call on `exCfg`, slot 0, image 0. -/
def exEvs : List Ev := (Renderer.drawFrameEvents exCfg 0 0).getD []

/-- The events of one `draw_frame` call on a two-entity scene with two
swapchain images, slot 0, image 0. -/
def exEvsTwo : List Ev :=
  (Renderer.drawFrameEvents (Renderer.rnew 2 [exEntity, exEntityB]) 0 0).getD []

/-! ## Lemmas -/

namespace Image

theorem log2floorAux_eq (fuel : Nat) : ∀ n, n ≤ fuel → log2floorAux fuel n = Nat.log2 n := by
  induction fuel with
  | zero =>
    intro n hn
    interval_cases n
    simp [log2floorAux, Nat.log2]
  | succ fuel ih =>
    intro n hn
    show (if n < 2 then 0 else log2floorAux fuel (n / 2) + 1) = Nat.log2 n
    by_cases h2 : n < 2
    · rw [if_pos h2]
      interval_cases n <;> simp [Nat.log2]
    · rw [if_neg h2]
      conv_rhs => rw [Nat.log2]
      rw [if_pos (show 2 ≤ n by omega), ih (n / 2) (by omega)]

theorem log2floor_eq_log2 (n : Nat) : log2floor n = Nat.log2 n :=
  log2floorAux_eq n n le_rfl

theorem f32ofU32_eq_self (v : Nat) (h : v ≤ 2 ^ 24) : f32ofU32 v = v := by
  rcases lt_or_eq_of_le h with h' | h'
  · rw [f32ofU32, if_pos h']
  · subst h'
    decide

theorem log2_mono {a b : Nat} (h : a ≤ b) : Nat.log2 a ≤ Nat.log2 b := by
  rw [Nat.log2_eq_log_two, Nat.log2_eq_log_two]
  exact Nat.log_mono_right h

/-- Two-term binomial lower bound: `(a+1)^n ≥ a^n + n·a^(n−1)` for `n ≥ 1`. -/
theorem add_one_pow_ge (a : Nat) :
    ∀ n, 1 ≤ n → a ^ n + n * a ^ (n - 1) ≤ (a + 1) ^ n := by
  intro n
  induction n with
  | zero => omega
  | succ n ih =>
    intro _
    cases n with
    | zero => simp
    | succ n' =>
      have ihh := ih (by omega)
      have key : a ^ (n' + 2) + (n' + 2) * a ^ (n' + 2 - 1) ≤
          (a ^ (n' + 1) + (n' + 1) * a ^ (n' + 1 - 1)) * (a + 1) := by
        have e : (a ^ (n' + 1) + (n' + 1) * a ^ n') * (a + 1) =
            a ^ (n' + 2) + (n' + 2) * a ^ (n' + 1) + (n' + 1) * a ^ n' := by
          ring
        rw [show n' + 1 - 1 = n' from rfl, e,
          show n' + 2 - 1 = n' + 1 from rfl]
        omega
      calc a ^ (n' + 2) + (n' + 2) * a ^ (n' + 2 - 1)
          ≤ (a ^ (n' + 1) + (n' + 1) * a ^ (n' + 1 - 1)) * (a + 1) := key
        _ ≤ (a + 1) ^ (n' + 1) * (a + 1) := Nat.mul_le_mul_right _ ihh
        _ = (a + 1) ^ (n' + 2) := (pow_succ _ _).symm

/-- `2·(n−1)^n ≤ n^n` for `n ≥ 2` (the `(1−1/n)^n ≤ 1/2` bound). -/
theorem two_mul_pred_pow_le (n : Nat) (hn : 2 ≤ n) :
    2 * (n - 1) ^ n ≤ n ^ n := by
  have h := add_one_pow_ge (n - 1) n (by omega)
  rw [Nat.sub_add_cancel (by omega)] at h
  have h2 : (n - 1) ^ n ≤ n * (n - 1) ^ (n - 1) := by
    have e : (n - 1) ^ n = (n - 1) ^ (n - 1) * (n - 1) := by
      rw [← pow_succ]
      congr 1
      omega
    rw [e, Nat.mul_comm n ((n - 1) ^ (n - 1))]
    exact Nat.mul_le_mul_left _ (by omega)
  omega

/-- Two-term binomial upper bound: `N^t ≤ (N−1)^t + t·N^(t−1)` for
`N ≥ 1`. -/
theorem pow_le_pred_pow_add (N : Nat) (hN : 1 ≤ N) :
    ∀ t, N ^ t ≤ (N - 1) ^ t + t * N ^ (t - 1) := by
  intro t
  induction t with
  | zero => simp
  | succ t ih =>
    cases t with
    | zero => simpa using by omega
    | succ t' =>
      show N ^ (t' + 2) ≤ (N - 1) ^ (t' + 2) + (t' + 2) * N ^ (t' + 1)
      have step : N ^ (t' + 2) ≤
          ((N - 1) ^ (t' + 1) + (t' + 1) * N ^ t') * N := by
        rw [pow_succ]
        exact Nat.mul_le_mul_right _ (by simpa using ih)
      have e2 : ((N - 1) ^ (t' + 1) + (t' + 1) * N ^ t') * N =
          (N - 1) ^ (t' + 1) * N + (t' + 1) * N ^ (t' + 1) := by
        rw [Nat.add_mul, Nat.mul_assoc, ← pow_succ]
      have e3 : (N - 1) ^ (t' + 1) * N =
          (N - 1) ^ (t' + 2) + (N - 1) ^ (t' + 1) := by
        have expand : (N - 1) ^ (t' + 1) * ((N - 1) + 1) =
            (N - 1) ^ (t' + 2) + (N - 1) ^ (t' + 1) := by
          rw [Nat.mul_add, Nat.mul_one, ← pow_succ]
        rw [← expand, Nat.sub_add_cancel hN]
      have e4 : (N - 1) ^ (t' + 1) ≤ N ^ (t' + 1) :=
        Nat.pow_le_pow_left (by omega) _
      have e5 : (t' + 2) * N ^ (t' + 1) =
          (t' + 1) * N ^ (t' + 1) + N ^ (t' + 1) := by ring
      rw [e2, e3] at step
      rw [e5]
      omega

/-- Key bound: for `1 ≤ j ≤ p`, `(2^j − 1)^(2^p) ≤ 2^(j·2^p − 1)` — i.e.
integers strictly below `2^j` stay below the f32 rounding midpoint
`j − 2^(−p)` in log₂ scale. -/
theorem pow_two_pow_le (j : Nat) (hj : 1 ≤ j) :
    ∀ p, j ≤ p → (2 ^ j - 1) ^ 2 ^ p ≤ 2 ^ (j * 2 ^ p - 1) := by
  intro p hp
  induction p, hp using Nat.le_induction with
  | base =>
    have h2j : 2 ≤ 2 ^ j := by
      calc 2 = 2 ^ 1 := rfl
        _ ≤ 2 ^ j := Nat.pow_le_pow_right (by omega) hj
    have hb := two_mul_pred_pow_le (2 ^ j) h2j
    rw [← pow_mul] at hb
    have hpos : 0 < j * 2 ^ j :=
      Nat.mul_pos (by omega) (Nat.pos_pow_of_pos _ (by omega))
    have he : j * 2 ^ j = j * 2 ^ j - 1 + 1 := by omega
    rw [he, pow_succ] at hb
    omega
  | succ p hjp ih =>
    have e1 : (2 ^ j - 1) ^ 2 ^ (p + 1) = ((2 ^ j - 1) ^ 2 ^ p) ^ 2 := by
      rw [← pow_mul, pow_succ]
    have e2 : (2 ^ (j * 2 ^ p - 1)) ^ 2 = 2 ^ (j * 2 ^ (p + 1) - 2) := by
      rw [← pow_mul]
      congr 1
      have hs : 1 ≤ 2 ^ p := Nat.one_le_two_pow
      have : j * 2 ^ (p + 1) = j * 2 ^ p * 2 := by rw [pow_succ, Nat.mul_assoc]
      omega
    calc (2 ^ j - 1) ^ 2 ^ (p + 1)
        = ((2 ^ j - 1) ^ 2 ^ p) ^ 2 := e1
      _ ≤ (2 ^ (j * 2 ^ p - 1)) ^ 2 := Nat.pow_le_pow_left ih 2
      _ = 2 ^ (j * 2 ^ (p + 1) - 2) := e2
      _ ≤ 2 ^ (j * 2 ^ (p + 1) - 1) := Nat.pow_le_pow_right (by omega) (by omega)

/-- Below `2^20` the correctly-rounded `log2` never rounds up across an
integer: there `floorLog2f` is the exact `⌊log₂⌋`. -/
theorem floorLog2f_eq_log2 (m : Nat) (h1 : 1 ≤ m) (h2 : m ≤ 2 ^ 20) :
    floorLog2f m = Nat.log2 m := by
  rw [floorLog2f]
  by_cases hpow : m = 2 ^ log2floor m
  · rw [if_pos hpow, log2floor_eq_log2]
  · rw [if_neg hpow]
    have hklog : log2floor m = Nat.log2 m := log2floor_eq_log2 m
    have hlo : 2 ^ Nat.log2 m ≤ m := Nat.log2_self_le (by omega)
    have hhi : m < 2 ^ (Nat.log2 m + 1) := Nat.lt_log2_self
    have hkle : Nat.log2 m ≤ 19 := by
      by_contra hc
      push_neg at hc
      have h20 : 2 ^ 20 ≤ 2 ^ Nat.log2 m := Nat.pow_le_pow_right (by omega) hc
      have hm : m = 2 ^ 20 := by omega
      have hl20 : Nat.log2 m = 20 := by
        rw [hm, ← log2floor_eq_log2]
        decide
      exact hpow (by rw [hklog, hl20, hm])
    have hbe : belowExp (log2floor m + 1) ≤ 4 := by
      rw [belowExp, show log2floor m + 1 - 1 = log2floor m from rfl,
        log2floor_eq_log2, hklog]
      calc Nat.log2 (Nat.log2 m) ≤ Nat.log2 19 := log2_mono hkle
        _ = 4 := by rw [← log2floor_eq_log2]; decide
    have hp : log2floor m + 1 ≤ 24 - belowExp (log2floor m + 1) := by
      rw [hklog] at *
      omega
    have hmle : m ≤ 2 ^ (log2floor m + 1) - 1 := by
      rw [hklog]
      omega
    have hcond : ¬ (2 ^ ((log2floor m + 1) *
        2 ^ (24 - belowExp (log2floor m + 1)) - 1) <
        m ^ 2 ^ (24 - belowExp (log2floor m + 1))) := by
      push_neg
      calc m ^ 2 ^ (24 - belowExp (log2floor m + 1))
          ≤ (2 ^ (log2floor m + 1) - 1) ^
            2 ^ (24 - belowExp (log2floor m + 1)) :=
            Nat.pow_le_pow_left hmle _
        _ ≤ 2 ^ ((log2floor m + 1) *
            2 ^ (24 - belowExp (log2floor m + 1)) - 1) :=
            pow_two_pow_le (log2floor m + 1) (by omega) _ hp
    rw [if_neg hcond, hklog]

theorem mip_levels_exact (W H : Nat) (h1 : 1 ≤ max W H)
    (h : max W H ≤ 2 ^ 20) :
    mip_levels ⟨W, H, 1⟩ = Nat.log2 (max W H) + 1 := by
  have h24 : max W H ≤ 2 ^ 24 :=
    le_trans h (by norm_num)
  rw [mip_levels, f32ofU32_eq_self _ h24, floorLog2f_eq_log2 _ h1 h]

/-- The round-up bound: for `p + 2 ≤ j`, the integer `2^j − 1` lies above
the f32 rounding midpoint `j − 2^(−p)` in log₂ scale — its true log₂ is
within half a float-ulp below `j`, so correctly-rounded `log2f` returns
exactly `j` there and the floor exceeds `⌊log₂⌋` by one. -/
theorem pred_pow_lower (j p : Nat) (h2 : p + 2 ≤ j) :
    2 ^ (j * 2 ^ p - 1) < (2 ^ j - 1) ^ 2 ^ p := by
  have hN : 1 ≤ 2 ^ j := Nat.one_le_two_pow
  have h1 := pow_le_pred_pow_add (2 ^ j) hN (2 ^ p)
  have ha : ((2 : Nat) ^ j) ^ 2 ^ p = 2 ^ (j * 2 ^ p) := by rw [← pow_mul]
  have hb : 2 ^ p * ((2 : Nat) ^ j) ^ (2 ^ p - 1) =
      2 ^ (p + j * (2 ^ p - 1)) := by rw [← pow_mul, ← pow_add]
  rw [ha, hb] at h1
  have hp1 : 1 ≤ 2 ^ p := Nat.one_le_two_pow
  have hmulsub : j * (2 ^ p - 1) + j = j * 2 ^ p := by
    have hsplit : j * (2 ^ p - 1 + 1) = j * (2 ^ p - 1) + j := by
      rw [Nat.mul_add, Nat.mul_one]
    rw [← hsplit, Nat.sub_add_cancel hp1]
  have hE1 : 1 ≤ j * 2 ^ p := by
    have := Nat.mul_pos (show 0 < j by omega) (show 0 < 2 ^ p by omega)
    omega
  have he1 : p + j * (2 ^ p - 1) + (j - p) = j * 2 ^ p := by omega
  have hd2 : (2 : Nat) ^ (j * 2 ^ p) =
      2 ^ (p + j * (2 ^ p - 1)) * 2 ^ (j - p) := by
    rw [← pow_add, he1]
  have hd1 : (2 : Nat) ^ (j * 2 ^ p) = 2 ^ (j * 2 ^ p - 1) * 2 := by
    rw [← pow_succ, show j * 2 ^ p - 1 + 1 = j * 2 ^ p from by omega]
  have hsmall : (4 : Nat) ≤ 2 ^ (j - p) := by
    calc (4 : Nat) = 2 ^ 2 := rfl
      _ ≤ 2 ^ (j - p) := Nat.pow_le_pow_right (by norm_num) (by omega)
  have hQpos : 0 < (2 : Nat) ^ (p + j * (2 ^ p - 1)) := Nat.two_pow_pos _
  have hii : 4 * 2 ^ (p + j * (2 ^ p - 1)) ≤
      2 ^ (j * 2 ^ p - 1) * 2 := by
    calc 4 * 2 ^ (p + j * (2 ^ p - 1))
        = 2 ^ (p + j * (2 ^ p - 1)) * 4 := by ring
      _ ≤ 2 ^ (p + j * (2 ^ p - 1)) * 2 ^ (j - p) :=
          Nat.mul_le_mul_left _ hsmall
      _ = 2 ^ (j * 2 ^ p) := hd2.symm
      _ = 2 ^ (j * 2 ^ p - 1) * 2 := hd1
  rw [hd1] at h1
  omega

end Image

namespace CommandExecutor

theorem foldl_pendingStep_records {α : Type} (q : QueueId) (cmds : List α) (acc : Nat) :
    (cmds.map ExecAct.record).foldl (pendingStep q) acc = acc := by
  induction cmds with
  | nil => rfl
  | cons c rest ih => simpa [pendingStep] using ih

end CommandExecutor

/-! ### Option-monad helpers -/

theorem mapM_eq_some_of {α β : Type} (f : α → Option β) (g : α → β) :
    ∀ l : List α, (∀ a ∈ l, f a = some (g a)) → l.mapM f = some (l.map g) := by
  intro l
  induction l with
  | nil => intro _; rfl
  | cons a t ih =>
    intro h
    rw [List.mapM_cons, h a (List.mem_cons_self a t),
      ih (fun x hx => h x (List.mem_cons_of_mem a hx))]
    rfl

theorem mapM_some_mem {α β : Type} (f : α → Option β) :
    ∀ (l : List α) (ls : List β), l.mapM f = some ls →
      ∀ b ∈ ls, ∃ a ∈ l, f a = some b := by
  intro l
  induction l with
  | nil =>
    intro ls h b hb
    cases h
    exact absurd hb (List.not_mem_nil b)
  | cons a t ih =>
    intro ls h b hb
    rw [List.mapM_cons] at h
    cases hfa : f a <;> rw [hfa] at h
    · exact absurd h (by simp)
    cases hts : t.mapM f <;> rw [hts] at h
    · exact absurd h (by simp)
    cases h
    rcases List.mem_cons.mp hb with rfl | hbt
    · exact ⟨a, List.mem_cons_self a t, hfa⟩
    · obtain ⟨a', ha', hfa'⟩ := ih _ hts b hbt
      exact ⟨a', List.mem_cons_of_mem a ha', hfa'⟩

theorem mapM_eq_none_of {α β : Type} (f : α → Option β) :
    ∀ (l : List α) (a : α), a ∈ l → f a = none → l.mapM f = none := by
  intro l
  induction l with
  | nil => intro a ha; exact absurd ha (List.not_mem_nil a)
  | cons b t ih =>
    intro a ha hfa
    rw [List.mapM_cons]
    rcases List.mem_cons.mp ha with rfl | hat
    · rw [hfa]; rfl
    · cases hfb : f b
      · rfl
      · rw [ih a hat hfa]; rfl

/-! ### Recording lemmas -/

namespace Renderer

theorem recordEntity_eq_some {cfg : Cfg} {e : Entity} (v x : Nat) (d : DSet)
    (hv : alookup e.id cfg.vertexBufs = some v)
    (hx : alookup e.id cfg.indexBufs = some x)
    (hd : alookup e.id cfg.descriptorSets = some d) :
    recordEntity cfg e =
      some [Ev.bindVertexBuf v, Ev.bindIndexBuf x, Ev.bindDescriptorSet d,
            Ev.pushConstants .vertexStage e.matrixData,
            Ev.drawIndexed e.indicesLen] := by
  rw [recordEntity, hv, hx, hd]
  rfl

theorem recordEntity_some_inv {cfg : Cfg} {e : Entity} {l : List Ev}
    (h : recordEntity cfg e = some l) :
    ∃ v x d, alookup e.id cfg.vertexBufs = some v ∧
      alookup e.id cfg.indexBufs = some x ∧
      alookup e.id cfg.descriptorSets = some d ∧
      l = [Ev.bindVertexBuf v, Ev.bindIndexBuf x, Ev.bindDescriptorSet d,
           Ev.pushConstants .vertexStage e.matrixData,
           Ev.drawIndexed e.indicesLen] := by
  rw [recordEntity] at h
  cases hv : alookup e.id cfg.vertexBufs <;> rw [hv] at h
  · exact absurd h (by simp)
  cases hx : alookup e.id cfg.indexBufs <;> rw [hx] at h
  · exact absurd h (by simp)
  cases hd : alookup e.id cfg.descriptorSets <;> rw [hd] at h
  · exact absurd h (by simp)
  refine ⟨_, _, _, rfl, rfl, rfl, ?_⟩
  cases h
  rfl

theorem recordEntity_events_recording {cfg : Cfg} {e : Entity} {l : List Ev}
    (h : recordEntity cfg e = some l) :
    ∀ ev ∈ l, isRecordingEv ev = true := by
  obtain ⟨v, x, d, _, _, _, rfl⟩ := recordEntity_some_inv h
  intro ev hev
  fin_cases hev <;> rfl

theorem recordAll_eq_flatten {cfg : Cfg} {ls : List (List Ev)}
    (h : cfg.entities.mapM (recordEntity cfg) = some ls) :
    recordAll cfg = some ls.flatten := by
  rw [recordAll, h]
  rfl

theorem recordAll_some_inv {cfg : Cfg} {recs : List Ev}
    (h : recordAll cfg = some recs) :
    ∃ ls, cfg.entities.mapM (recordEntity cfg) = some ls ∧ recs = ls.flatten := by
  rw [recordAll] at h
  cases hls : cfg.entities.mapM (recordEntity cfg) <;> rw [hls] at h
  · exact absurd h (by simp)
  · exact ⟨_, rfl, by cases h; rfl⟩

theorem recordAll_events_recording {cfg : Cfg} {recs : List Ev}
    (h : recordAll cfg = some recs) :
    ∀ ev ∈ recs, isRecordingEv ev = true := by
  obtain ⟨ls, hls, rfl⟩ := recordAll_some_inv h
  intro ev hev
  rw [List.mem_flatten] at hev
  obtain ⟨l, hl, hevl⟩ := hev
  obtain ⟨e, _, hfe⟩ := mapM_some_mem _ _ _ hls l hl
  exact recordEntity_events_recording hfe ev hevl

theorem drawFrameEvents_eq (cfg : Cfg) (f i : Nat) :
    drawFrameEvents cfg f i = (recordAll cfg).map (blockShape cfg f i) := by
  cases h : recordAll cfg <;> simp [drawFrameEvents, blockShape, h]

theorem drawFrameEvents_some_inv {cfg : Cfg} {f i : Nat} {evs : List Ev}
    (h : drawFrameEvents cfg f i = some evs) :
    ∃ recs, recordAll cfg = some recs ∧ evs = blockShape cfg f i recs := by
  rw [drawFrameEvents_eq] at h
  cases hr : recordAll cfg <;> rw [hr] at h
  · exact absurd h (by simp)
  · exact ⟨_, rfl, by cases h; rfl⟩

end Renderer

/-! ### Block-content computations -/

theorem blockShape_nullGuard {cfg : Cfg} {s : Nat} (i : Nat) (recs : List Ev)
    (hnull : cfg.unsigFenceHandle s = none) :
    blockShape cfg s i recs =
      [Ev.waitFence (.sigFence s), Ev.acquire (.waitSem s) i,
       Ev.resetCmdBuf i, Ev.updateUniform i, Ev.beginRecord i]
      ++ recs
      ++ [Ev.endRecord i, Ev.resetFence (.sigFence s),
          Ev.submit .graphics (.waitSem s) .colorAttachmentOutput i
            (.signalSem s) (.sigFence s),
          Ev.present .present (.signalSem s) i] := by
  rw [blockShape, hnull]
  rfl

theorem alookup_eq_none {α : Type} (id : Nat) :
    ∀ lst : List (Nat × α), id ∉ lst.map Prod.fst → alookup id lst = none := by
  intro lst
  induction lst with
  | nil => intro _; rfl
  | cons p t ih =>
    obtain ⟨k, a⟩ := p
    intro h
    rw [List.map_cons, List.mem_cons] at h
    push_neg at h
    rw [alookup, if_neg (by simpa [eq_comm] using h.1)]
    exact ih h.2

theorem alookup_key_map (ents : List Entity) (e : Entity) (he : e ∈ ents) :
    alookup e.id (ents.map fun x => (x.id, x.id)) = some e.id := by
  induction ents with
  | nil => exact absurd he (List.not_mem_nil e)
  | cons a t ih =>
    rw [List.map_cons, alookup]
    by_cases hae : a.id = e.id
    · rw [if_pos hae, hae]
    · rw [if_neg hae]
      rcases List.mem_cons.mp he with rfl | het
      · exact absurd rfl hae
      · exact ih het

theorem alookup_mkDS (e : Entity) :
    ∀ (l : List Entity) (idxs : List Nat), e ∈ l → l.length ≤ idxs.length →
      ∃ ub, alookup e.id ((idxs.zip l).map fun p =>
          (p.2.id, ({ uniformBufIdx := p.1, textureOwner := p.2.id } : DSet))) =
        some { uniformBufIdx := ub, textureOwner := e.id } := by
  intro l
  induction l with
  | nil => intro idxs he; exact absurd he (List.not_mem_nil e)
  | cons a t ih =>
    intro idxs he hlen
    cases idxs with
    | nil => simp at hlen
    | cons i is =>
      rw [List.zip_cons_cons, List.map_cons, alookup]
      by_cases hae : a.id = e.id
      · rw [if_pos hae]
        exact ⟨i, by rw [hae]⟩
      · rw [if_neg hae]
        rcases List.mem_cons.mp he with rfl | het
        · exact absurd rfl hae
        · exact ih is het (by simpa using hlen)

theorem mkDS_keys : ∀ (idxs : List Nat) (l : List Entity),
    ((idxs.zip l).map fun p =>
        (p.2.id, ({ uniformBufIdx := p.1, textureOwner := p.2.id } : DSet))).map
      Prod.fst = (l.take idxs.length).map Entity.id := by
  intro idxs
  induction idxs with
  | nil => intro l; simp
  | cons i is ih =>
    intro l
    cases l with
    | nil => simp
    | cons a t => simp [ih t]

theorem mkDS_ubIdx : ∀ (idxs : List Nat) (l : List Entity),
    ((idxs.zip l).map fun p =>
        (p.2.id, ({ uniformBufIdx := p.1, textureOwner := p.2.id } : DSet))).map
      (fun p => p.2.uniformBufIdx) = idxs.take l.length := by
  intro idxs
  induction idxs with
  | nil => intro l; simp
  | cons i is ih =>
    intro l
    cases l with
    | nil => simp
    | cons a t => simp [ih t]

/-! ### Run-level safety analysis -/

/-- C3: `Fence::new(device, false)` performs no fence-creation API call and
stores the null handle (on which `is_null` returns `true`), while only
`Fence::new(device, true)` creates a (signaled) fence; consequently the
one-shot executor's throwaway fence and every `unsignaled_fences` entry of
`Renderer::new` is a null handle (the renderer never replaces these fences,
so this holds for its whole lifetime: in the model the fence handles live in
the immutable configuration `Cfg`). -/
theorem c3_fences :
    (∀ fresh, Fence.new false fresh =
      { handle := none, createCalls := 0, signaledFlag := false }) ∧
    (∀ fresh, Fence.new true fresh =
      { handle := some fresh, createCalls := 1, signaledFlag := true }) ∧
    (∀ fresh, Fence.is_null (Fence.new false fresh) = true) ∧
    CommandExecutor.throwawayFence.handle = none ∧
    (∀ {α : Type} (cmds : List α),
      ExecAct.submitOneShot QueueId.graphics none ∈ CommandExecutor.execute cmds) ∧
    (∀ numImages entities s,
      (Renderer.rnew numImages entities).unsigFenceHandle s = none) ∧
    (∀ numImages entities s,
      (Renderer.rnew numImages entities).sigFenceHandle s = some (s + 1)) := by
  refine ⟨fun _ => rfl, fun _ => rfl, fun _ => rfl, rfl, ?_, fun _ _ _ => rfl,
    fun _ _ _ => rfl⟩
  intro α cmds
  simp [CommandExecutor.execute, CommandExecutor.throwawayFence, Fence.new]

/-- C4 counterexample: the uniform buffer is **not** allocated device-local
and is **not** filled through a staging copy — `Buffer::from_uniform_data`
allocates `HOST_COHERENT | HOST_VISIBLE` memory with no fill, and
`UniformBuffer::update` writes it by a direct host memcpy. -/
theorem c4_counterexample :
    Buffer.from_uniform_data.memProps = [MemProp.hostCoherent, MemProp.hostVisible] ∧
    MemProp.deviceLocal ∉ Buffer.from_uniform_data.memProps ∧
    Buffer.from_uniform_data.fill ≠ FillMethod.stagingCopy ∧
    Buffer.uniform_update_fill = FillMethod.directHostWrite := by
  refine ⟨rfl, by decide, by decide, rfl⟩

/-- C4 (amended): staging buffers are always host-visible + host-coherent
with transfer-src usage; vertex and index buffers are device-local and filled
through a staging buffer-to-buffer copy; but the uniform buffers are
host-visible + host-coherent, created unfilled and written directly by the
CPU (`UniformBuffer::update`), not device-local and not staged. -/
theorem c4_amended (elemSize len vlen ilen : Nat) :
    (Buffer.from_staging_data elemSize len).memProps =
      [MemProp.hostVisible, MemProp.hostCoherent] ∧
    (Buffer.from_staging_data elemSize len).usage = [BufUsage.transferSrc] ∧
    (Buffer.from_vertices vlen).memProps = [MemProp.deviceLocal] ∧
    (Buffer.from_vertices vlen).fill = FillMethod.stagingCopy ∧
    (Buffer.from_indices ilen).memProps = [MemProp.deviceLocal] ∧
    (Buffer.from_indices ilen).fill = FillMethod.stagingCopy ∧
    Buffer.from_uniform_data.memProps =
      [MemProp.hostCoherent, MemProp.hostVisible] ∧
    Buffer.from_uniform_data.fill = FillMethod.unfilled ∧
    Buffer.uniform_update_fill = FillMethod.directHostWrite :=
  ⟨rfl, rfl, rfl, rfl, rfl, rfl, rfl, rfl, rfl⟩

/-- C6 counterexample: the claimed identity
`mip_levels = ⌊log₂(max(W,H))⌋ + 1` fails at `W = 16777215 = 2^24 − 1`,
`H = 1`: the input is exactly representable in f32, but its true log₂ lies
within half a float-ulp below 24, so the correctly-rounded `f32::log2`
returns exactly `24.0` and the code yields 25 while the claimed formula
gives `⌊log₂⌋ + 1 = 24`. -/
theorem c6_counterexample :
    Image.mip_levels ⟨16777215, 1, 1⟩ = 25 ∧
    Nat.log2 (max 16777215 1) + 1 = 24 := by
  have hfloor : Image.floorLog2f 16777215 = 24 := by
    rw [Image.floorLog2f,
      if_neg (by decide : ¬(16777215 = 2 ^ Image.log2floor 16777215))]
    rw [show Image.log2floor 16777215 = 23 from by decide,
      show Image.belowExp (23 + 1) = 4 from by decide]
    rw [if_pos (show 2 ^ ((23 + 1) * 2 ^ (24 - 4) - 1) <
        16777215 ^ 2 ^ (24 - 4) from by
      rw [show (16777215 : Nat) = 2 ^ 24 - 1 from by norm_num,
        show 23 + 1 = 24 from rfl, show 24 - 4 = 20 from rfl]
      exact Image.pred_pow_lower 24 20 (by norm_num))]
  constructor
  · rw [Image.mip_levels,
      show (⟨16777215, 1, 1⟩ : Extent3D).width = 16777215 from rfl,
      show (⟨16777215, 1, 1⟩ : Extent3D).height = 1 from rfl,
      show max (16777215 : Nat) 1 = 16777215 from rfl,
      Image.f32ofU32_eq_self 16777215 (by norm_num), hfloor]
  · rw [← Image.log2floor_eq_log2]
    decide

/-- C6 (amended): `Image::mip_levels` computes
`⌊log2f(f32(max(W,H)))⌋ + 1` where `f32` is the u32 → f32 round-to-nearest
conversion and `log2f` the correctly-rounded f32 log₂; this equals
`⌊log₂(max(W,H))⌋ + 1` whenever `max(W,H) ≤ 2^20` (in particular
1×1 → 1, 256×256 → 9, 300×200 → 9), but it exceeds that formula by one at
values whose log₂ lies within half a float-ulp below an integer (first at
`2^21 − 1`, and e.g. at `2^24 − 1`, see the counterexample; from `2^25 − 1`
on also through u32 → f32 rounding).  Texture images are created with
exactly this mip level count. -/
theorem c6_amended (W H m : Nat) (hW : 1 ≤ W) (hH : 1 ≤ H)
    (hmax : max W H ≤ 2 ^ 20) :
    Image.mip_levels ⟨W, H, 1⟩ = Nat.log2 (max W H) + 1 ∧
    Image.mip_levels ⟨1, 1, 1⟩ = 1 ∧
    Image.mip_levels ⟨256, 256, 1⟩ = 9 ∧
    Image.mip_levels ⟨300, 200, 1⟩ = 9 ∧
    (Texture.create_image ⟨W, H, 1⟩ m).mipLevels = Image.mip_levels ⟨W, H, 1⟩ := by
  refine ⟨Image.mip_levels_exact W H (le_trans hW (le_max_left W H)) hmax,
    by decide, by decide, ?_, rfl⟩
  rw [Image.mip_levels_exact 300 200 (by decide) (by decide),
    ← Image.log2floor_eq_log2]
  decide

/-- C6 witness: the amended theorem applied at the 300×200 boundary case. -/
theorem c6_witness :
    Image.mip_levels ⟨300, 200, 1⟩ = Nat.log2 (max 300 200) + 1 :=
  (c6_amended 300 200 1 (by decide) (by decide) (by decide)).1

/-- C7: the one-shot executor performs exactly: allocate a primary command
buffer, begin, record the caller's closure, end, submit on the graphics queue
with the throwaway (null-handle) fence, wait for queue idle, destroy the
fence, free the command buffer — and after the queue-idle wait no submitted
batch is pending, so the transfer has completed synchronously when the
executor returns. -/
theorem c7_executor {α : Type} (cmds : List α) :
    CommandExecutor.execute cmds =
      [ExecAct.alloc .primary, ExecAct.beginBuf]
        ++ cmds.map ExecAct.record
        ++ [ExecAct.endBuf, ExecAct.submitOneShot .graphics none,
            ExecAct.waitIdle .graphics, ExecAct.destroyFence,
            ExecAct.freeCmdBuf] ∧
    CommandExecutor.pendingAfter .graphics (CommandExecutor.execute cmds) = 0 := by
  constructor
  · rfl
  · show List.foldl _ 0 _ = 0
    rw [CommandExecutor.execute]
    rw [List.foldl_append, List.foldl_append]
    rw [CommandExecutor.foldl_pendingStep_records]
    rfl

/-- C2 counterexample: image index 0's previous use (call 0) submitted with
the non-null frame-done fence of slot 0, and call 1 acquires image 0 again
and resets its command buffer — yet call 1 never waits on that fence: the
guard at renderer.rs:414-416 consults `unsignaled_fences[self.frame]`, a
slot-indexed always-null fence never associated with any image use. -/
theorem c2_counterexample :
    fencedBy exBlocks 0 (Res.sigFence 0) = true ∧
    usesRes exBlocks 0 (Res.cmdBuf 0) = true ∧
    (exCfg.sigFenceHandle 0).isSome = true ∧
    Ev.resetCmdBuf 0 ∈ blockAt exBlocks 1 ∧
    Res.sigFence 0 ∉ blockWaits (blockAt exBlocks 1) := by
  decide

/-- C2 (amended): `draw_frame` guards the extra fence wait with an explicit
null check, but on the **current slot's** `unsignaled_fences` entry, not on
anything keyed by the acquired image index: the wait occurs iff that slot
fence's handle is non-null, and in the configuration `Renderer::new` builds
these handles are always null, so the wait is always skipped (no wait on an
invalid handle ever occurs, and no fence associated with the image's
previous use is waited on either). -/
theorem c2_amended (cfg : Cfg) (frame image : Nat) (evs : List Ev)
    (h : Renderer.drawFrameEvents cfg frame image = some evs) :
    (Ev.waitFence (.unsigFence frame) ∈ evs ↔
      (cfg.unsigFenceHandle frame).isNone = false) ∧
    (∀ numImages entities, cfg = Renderer.rnew numImages entities →
      cfg.unsigFenceHandle frame = none ∧
      Ev.waitFence (.unsigFence frame) ∉ evs) := by
  obtain ⟨recs, hrecs, rfl⟩ := Renderer.drawFrameEvents_some_inv h
  have hnrec : Ev.waitFence (.unsigFence frame) ∉ recs := by
    intro hmem
    have := Renderer.recordAll_events_recording hrecs _ hmem
    simp [isRecordingEv] at this
  have hmemIff : Ev.waitFence (.unsigFence frame) ∈
      blockShape cfg frame image recs ↔
      (cfg.unsigFenceHandle frame).isNone = false := by
    rw [blockShape]
    cases h0 : (cfg.unsigFenceHandle frame).isNone <;>
      simp [h0, hnrec]
  refine ⟨hmemIff, ?_⟩
  rintro numImages entities rfl
  refine ⟨rfl, ?_⟩
  rw [hmemIff]
  simp [Renderer.rnew, Fence.new]

/-- C2 witness: on the concrete one-entity configuration the amended theorem
shows the guard wait is skipped in a concrete `draw_frame` call. -/
theorem c2_witness : Ev.waitFence (.unsigFence 0) ∉ exEvs :=
  ((c2_amended exCfg 0 0 exEvs (by decide)).2 2 [exEntity] rfl).2

/-- C5: in every `draw_frame` call the tail executes in order — the slot's
frame-done fence reset immediately precedes the graphics-queue submit, which
waits on the slot's acquire semaphore at the color-attachment-output stage,
signals the slot's render-done semaphore and signals the frame-done fence;
then the present-queue present waits on the render-done semaphore and
presents the acquired image index; and the slot advances to
`(frame + 1) % MAX_FLIGHT_FRAMES_COUNT` with `MAX_FLIGHT_FRAMES_COUNT = 2`. -/
theorem c5_submission_tail (numImages : Nat) (entities : List Entity)
    (frame image : Nat) (evs : List Ev)
    (h : Renderer.drawFrameEvents (Renderer.rnew numImages entities)
      frame image = some evs) :
    Ev.acquire (.waitSem frame) image ∈ evs ∧
    (∃ pre, evs = pre ++
      [Ev.resetFence (.sigFence frame),
       Ev.submit .graphics (.waitSem frame) .colorAttachmentOutput image
         (.signalSem frame) (.sigFence frame),
       Ev.present .present (.signalSem frame) image]) ∧
    Renderer.nextFrame (Renderer.rnew numImages entities) frame =
      (frame + 1) % MAX_FLIGHT_FRAMES_COUNT ∧
    MAX_FLIGHT_FRAMES_COUNT = 2 := by
  obtain ⟨recs, hrecs, rfl⟩ := Renderer.drawFrameEvents_some_inv h
  refine ⟨?_, ?_, rfl, rfl⟩
  · rw [blockShape_nullGuard image recs rfl]
    simp
  · refine ⟨[Ev.waitFence (.sigFence frame), Ev.acquire (.waitSem frame) image,
      Ev.resetCmdBuf image, Ev.updateUniform image, Ev.beginRecord image]
      ++ recs ++ [Ev.endRecord image], ?_⟩
    rw [blockShape_nullGuard image recs rfl]
    simp

/-- C5 witness: the tail-order theorem applied to a concrete call. -/
theorem c5_witness : Ev.acquire (.waitSem 0) 0 ∈ exEvs :=
  (c5_submission_tail 2 [exEntity] 0 0 exEvs (by decide)).1

/-- Each entity contributes exactly one indexed draw. -/
theorem draws_length (cfg : Cfg) : ∀ l : List Entity,
    ((l.flatMap (entityRecording cfg)).filter isDrawEv).length = l.length := by
  intro l
  induction l with
  | nil => rfl
  | cons a t ih =>
    rw [List.flatMap_cons, List.filter_append, List.length_append, ih]
    have h1 : ((entityRecording cfg a).filter isDrawEv).length = 1 := rfl
    rw [h1, List.length_cons]
    omega

/-- C8: for a scene whose entities all have their own per-entity resource set
(ids found in every map — guaranteed when there are at least as many
swapchain images as entities), one `draw_frame` call records exactly one
indexed draw per entity, and the recording is exactly, per entity in scene
order: bind its vertex buffer, bind its index buffer, bind its descriptor
set (which references its own texture), push its model matrix as a
vertex-stage push constant, draw its indices. -/
theorem c8_draws (numImages : Nat) (ents : List Entity) (frame image : Nat)
    (evs : List Ev) (hlen : ents.length ≤ numImages)
    (hevs : Renderer.drawFrameEvents (Renderer.rnew numImages ents)
      frame image = some evs) :
    Renderer.recordAll (Renderer.rnew numImages ents) =
      some (ents.flatMap (entityRecording (Renderer.rnew numImages ents))) ∧
    evs = blockShape (Renderer.rnew numImages ents) frame image
      (ents.flatMap (entityRecording (Renderer.rnew numImages ents))) ∧
    (evs.filter isDrawEv).length = ents.length ∧
    ∀ e ∈ ents,
      (dsFor (Renderer.rnew numImages ents) e).textureOwner = e.id := by
  have howner : ∀ e ∈ ents,
      (dsFor (Renderer.rnew numImages ents) e).textureOwner = e.id := by
    intro e he
    obtain ⟨ub, hub⟩ := alookup_mkDS e ents (List.range numImages) he
      (by rw [List.length_range]; exact hlen)
    have hd : alookup e.id (Renderer.rnew numImages ents).descriptorSets =
        some { uniformBufIdx := ub, textureOwner := e.id } := hub
    rw [dsFor, hd]
    rfl
  have hentity : ∀ e ∈ ents,
      Renderer.recordEntity (Renderer.rnew numImages ents) e =
        some (entityRecording (Renderer.rnew numImages ents) e) := by
    intro e he
    obtain ⟨ub, hub⟩ := alookup_mkDS e ents (List.range numImages) he
      (by rw [List.length_range]; exact hlen)
    have hd : alookup e.id (Renderer.rnew numImages ents).descriptorSets =
        some { uniformBufIdx := ub, textureOwner := e.id } := hub
    have hds : dsFor (Renderer.rnew numImages ents) e =
        { uniformBufIdx := ub, textureOwner := e.id } := by
      rw [dsFor, hd]
      rfl
    have hv : alookup e.id (Renderer.rnew numImages ents).vertexBufs =
        some e.id := alookup_key_map ents e he
    have hx : alookup e.id (Renderer.rnew numImages ents).indexBufs =
        some e.id := alookup_key_map ents e he
    rw [entityRecording, hds]
    exact Renderer.recordEntity_eq_some e.id e.id _ hv hx hd
  have hall : Renderer.recordAll (Renderer.rnew numImages ents) =
      some (ents.flatMap (entityRecording (Renderer.rnew numImages ents))) := by
    rw [List.flatMap_def]
    exact Renderer.recordAll_eq_flatten (mapM_eq_some_of _ _ ents hentity)
  obtain ⟨recs, hrecs, rfl⟩ := Renderer.drawFrameEvents_some_inv hevs
  have hrecs_eq : recs =
      ents.flatMap (entityRecording (Renderer.rnew numImages ents)) :=
    Option.some.inj (hrecs.symm.trans hall)
  subst hrecs_eq
  refine ⟨hall, rfl, ?_, howner⟩
  rw [blockShape_nullGuard image _ rfl, List.filter_append, List.filter_append,
    List.length_append, List.length_append, draws_length]
  simp [isDrawEv]

/-- C8 witness: two entities under distinct ids, two swapchain images —
a concrete `draw_frame` call records exactly two indexed draws. -/
theorem c8_witness :
    (exEvsTwo.filter isDrawEv).length = [exEntity, exEntityB].length :=
  (c8_draws 2 [exEntity, exEntityB] 0 0 exEvsTwo (by decide) (by decide)).2.2.1

/-- C9: `Renderer::new` zips the per-swapchain-image uniform buffers with the
scene's entities, so it creates exactly `min numImages (entities.length)`
descriptor sets, the zipped uniform-buffer indices being exactly
`0, 1, …` (each created set references a distinct fixed uniform buffer); and
whenever the scene has more entities than swapchain images (with distinct
entity ids), some entity has no descriptor set and `draw_frame`'s
`descriptor_sets[&entity.id]` lookup panics (modelled as `none`). -/
theorem c9_descriptor_zip (m : Nat) (ents : List Entity) :
    (Renderer.mkDescriptorSets m ents).length = min m ents.length ∧
    (Renderer.mkDescriptorSets m ents).map (fun p => p.2.uniformBufIdx) =
      List.range (min m ents.length) ∧
    (m < ents.length → (ents.map Entity.id).Nodup →
      ∃ e ∈ ents, alookup e.id (Renderer.mkDescriptorSets m ents) = none ∧
        ∀ frame image,
          Renderer.drawFrameEvents (Renderer.rnew m ents) frame image = none) := by
  refine ⟨?_, ?_, ?_⟩
  · rw [Renderer.mkDescriptorSets, List.length_map, List.length_zip,
      List.length_range]
  · rw [Renderer.mkDescriptorSets, mkDS_ubIdx, List.take_range, Nat.min_comm]
  · intro hm hnodup
    obtain ⟨e, t, hdrop⟩ : ∃ e t, ents.drop m = e :: t := by
      have hne : ents.drop m ≠ [] := by
        intro hnil
        have := List.length_drop m ents
        rw [hnil] at this
        simp at this
        omega
      obtain ⟨e, t, het⟩ := List.exists_cons_of_ne_nil hne
      exact ⟨e, t, het⟩
    have hemem : e ∈ ents :=
      List.mem_of_mem_drop (hdrop ▸ List.mem_cons_self e t)
    have hid_notin : e.id ∉ (ents.take m).map Entity.id := by
      intro hin
      have hsplit : ents.map Entity.id =
          (ents.take m).map Entity.id ++ (ents.drop m).map Entity.id := by
        rw [← List.map_append, List.take_append_drop]
      rw [hsplit] at hnodup
      refine (List.nodup_append.mp hnodup).2.2 hin ?_
      rw [hdrop, List.map_cons]
      exact List.mem_cons_self e.id _
    have hkeys : (Renderer.mkDescriptorSets m ents).map Prod.fst =
        (ents.take m).map Entity.id := by
      rw [Renderer.mkDescriptorSets, mkDS_keys, List.length_range]
    have hnone : alookup e.id (Renderer.mkDescriptorSets m ents) = none := by
      apply alookup_eq_none
      rw [hkeys]
      exact hid_notin
    refine ⟨e, hemem, hnone, ?_⟩
    intro frame image
    have hre : Renderer.recordEntity (Renderer.rnew m ents) e = none := by
      rw [Renderer.recordEntity]
      rw [show alookup e.id (Renderer.rnew m ents).vertexBufs = some e.id from
        alookup_key_map ents e hemem]
      rw [show alookup e.id (Renderer.rnew m ents).indexBufs = some e.id from
        alookup_key_map ents e hemem]
      rw [show alookup e.id (Renderer.rnew m ents).descriptorSets = none from
        hnone]
      rfl
    have hmapM : ents.mapM (Renderer.recordEntity (Renderer.rnew m ents)) =
        none := mapM_eq_none_of _ ents e hemem hre
    have hrecAll : Renderer.recordAll (Renderer.rnew m ents) = none := by
      rw [Renderer.recordAll,
        show (Renderer.rnew m ents).entities = ents from rfl, hmapM]
      rfl
    rw [Renderer.drawFrameEvents_eq, hrecAll]
    rfl

/-- C9 witness: two distinct-id entities but a single swapchain image — a
concrete `draw_frame` call panics on the descriptor-set lookup. -/
theorem c9_witness :
    Renderer.drawFrameEvents (Renderer.rnew 1 [exEntity, exEntityB]) 0 0 =
      none := by
  obtain ⟨e, he, hnone, hdf⟩ :=
    (c9_descriptor_zip 1 [exEntity, exEntityB]).2.2 (by decide) (by decide)
  exact hdf 0 0

/-- C10: `Renderer::new` ignores its `msaa_sample_count` parameter — the
local binding at renderer.rs:89 forces the sample count to 1 before any
consumer reads it, so for every caller-supplied count the outcome equals the
count-1 outcome: no multisample color image, and the device, render pass,
texture images, pipeline and depth image are all single-sampled. -/
theorem c10_msaa_ignored (p : Nat) :
    Renderer.msaaOutcome p = Renderer.msaaOutcome 1 ∧
    (Renderer.msaaOutcome p).colorImageSamples = none ∧
    Renderer.msaaOutcome p =
      { deviceSamples := 1, renderPassSamples := 1, textureImageSamples := 1,
        pipelineSamples := 1, depthImageSamples := 1,
        colorImageSamples := none } :=
  ⟨rfl, rfl, rfl⟩

end CpyteEngine
